import Mathlib

/-!
Shallow embedding of `src/entt/meta/factory.hpp` (the meta registration
builder of the reflection registry) and proofs of its specified behavior.

Modelling conventions:
- `id_type` and the stable type keys produced by the identifier service are
  `Nat`.
- Type-erased operations (upcast, conversion, construct, invoke, getter,
  resolver function pointers) are opaque tokens (`Nat`): the registry only
  stores and indexes them, and the source compares them solely by pointer
  identity (`curr->invoke == node.invoke`), which token equality models.
  The one exception is the data setter, whose observable success/failure
  and effect the spec constrains: it is modelled as a semantic function
  `Nat → Nat → Option Nat` (erased instance, erased value ↦ `some` new
  instance on success, `none` on failure without effect).
- The `dense_map` containers are association lists with C++ map semantics:
  `findKey` is lookup, `insertOrAssign` is `insert_or_assign` (update in
  place if the key exists, append otherwise), `eraseKey` is `erase`.
- The `shared_ptr<meta_type_descriptor>` indirection is flattened: within
  one context the descriptor shared by a builder session is exactly the
  descriptor stored in the context record of the session's parent key, so
  every access through the builder's `details` pointer is modelled as an
  access through the context at `parent`.
-/

namespace entt

/-- `id_type`, the identifier/type-key type. -/
abbrev id_type := Nat

/-- `dense_map` lookup: first entry with the given key. -/
def findKey {V : Type} : List (Nat × V) → Nat → Option V
  | [], _ => none
  | (k, v) :: rest, key => if k = key then some v else findKey rest key

/-- `dense_map::insert_or_assign`: replace in place when the key exists,
append otherwise. -/
def insertOrAssign {V : Type} : List (Nat × V) → Nat → V → List (Nat × V)
  | [], key, v => [(key, v)]
  | (k, w) :: rest, key, v =>
    if k = key then (key, v) :: rest else (k, w) :: insertOrAssign rest key v

/-- `dense_map::erase` by key. -/
def eraseKey {V : Type} (m : List (Nat × V)) (key : Nat) : List (Nat × V) :=
  m.filter (fun kv => kv.1 != key)

/-- `internal::meta_prop_node`: value-type resolver token and optional owned
erased value token. -/
structure meta_prop_node where
  type : Nat
  value : Option Nat := none
deriving Repr, DecidableEq

/-- `internal::meta_base_node`: base-type resolver token and upcast token. -/
structure meta_base_node where
  type : Nat
  cast : Nat
deriving Repr, DecidableEq

/-- `internal::meta_conv_node`: conversion operation token. -/
structure meta_conv_node where
  conv : Nat
deriving Repr, DecidableEq

/-- `internal::meta_ctor_node`: arity, argument-type resolver token and
construct operation token. -/
structure meta_ctor_node where
  arity : Nat
  arg : Nat
  invoke : Nat
deriving Repr, DecidableEq

/-- `internal::meta_dtor_node`: cleanup operation token. -/
structure meta_dtor_node where
  dtor : Nat
deriving Repr, DecidableEq

/-- `internal::meta_data_node`: trait flags, arity, value-type resolver,
argument resolver, setter (semantic, see module comment), getter, and the
per-entry property map. -/
structure meta_data_node where
  traits : Nat
  arity : Nat
  type : Nat
  arg : Nat
  set : Nat → Nat → Option Nat
  get : Nat
  prop : List (Nat × meta_prop_node) := []

/-- `internal::meta_func_node`: trait flags, arity, return-type resolver,
argument resolver, invoke token, per-entry property map, and the `next`
link of the intrusive singly linked overload chain. -/
inductive meta_func_node : Type where
  | mk (traits : Nat) (arity : Nat) (ret : Nat) (arg : Nat) (invoke : Nat)
       (prop : List (Nat × meta_prop_node)) (next : Option meta_func_node)

/-- The `invoke` field of a function node. -/
def meta_func_node.invoke : meta_func_node → Nat
  | .mk _ _ _ _ i _ _ => i

/-- The `next` link of a function node. -/
def meta_func_node.next : meta_func_node → Option meta_func_node
  | .mk _ _ _ _ _ _ n => n

/-- The property map of a function node. -/
def meta_func_node.prop : meta_func_node → List (Nat × meta_prop_node)
  | .mk _ _ _ _ _ p _ => p

/-- A function node with its `next` link replaced
(`node.next = std::move(curr->next)`). -/
def meta_func_node.withNext : meta_func_node → Option meta_func_node → meta_func_node
  | .mk t a r g i p _, n => .mk t a r g i p n

/-- A function node with its property map replaced
(`func[bucket].prop[key] = value`). -/
def meta_func_node.withProp : meta_func_node → List (Nat × meta_prop_node) → meta_func_node
  | .mk t a r g i _ n, p => .mk t a r g i p n

/-- The invoke tokens of an overload chain, head first. -/
def chainInvokes : meta_func_node → List Nat
  | .mk _ _ _ _ i _ none => [i]
  | .mk _ _ _ _ i _ (some nxt) => i :: chainInvokes nxt

/-- Whether some node of the chain has the given invoke token (the identity
test of the walk in `extend(id, meta_func_node)`). -/
def chainHasInvoke (c : meta_func_node) (tok : Nat) : Bool :=
  (chainInvokes c).contains tok

/-- The walk of `extend(id, meta_func_node)` over an existing chain: find the
first node whose invoke token equals `node`'s, replace it with `node` while
keeping the replaced node's `next` link; `none` when no node matches. -/
def spliceChain (node : meta_func_node) : meta_func_node → Option meta_func_node
  | .mk t a r g i p n =>
    if i = node.invoke then
      some (node.withNext n)
    else
      match n with
      | none => none
      | some nxt =>
        match spliceChain node nxt with
        | none => none
        | some nxt' => some (.mk t a r g i p (some nxt'))

/-- `internal::meta_type_descriptor`: the maps of the extensible parts of a
reflected type. -/
structure meta_type_descriptor where
  ctor : List (Nat × meta_ctor_node) := []
  base : List (Nat × meta_base_node) := []
  conv : List (Nat × meta_conv_node) := []
  data : List (Nat × meta_data_node) := []
  func : List (Nat × meta_func_node) := []
  prop : List (Nat × meta_prop_node) := []

/-- `internal::meta_type_node`, reduced to the parts the factory touches:
the externally visible `id`, the destructor slot and the descriptor (the
`shared_ptr` indirection flattened, see the module comment). -/
structure meta_type_node where
  id : Nat
  dtor : Option meta_dtor_node := none
  details : meta_type_descriptor := {}

/-- `internal::meta_context`: type key → type node. -/
structure meta_context where
  value : List (Nat × meta_type_node) := []

/-- Modelled from the spec: the node `resolve<Type>` builds for a type not
yet in the context has its `id` initialized to the type's structural key and
no reflected parts (node.hpp/resolve.hpp are outside the embedded source). -/
def freshNode (key : Nat) : meta_type_node :=
  { id := key }

/-- The record at `key`, default-created when absent
(`context.value[key]` semantics). -/
def getRecord (ctx : meta_context) (key : Nat) : meta_type_node :=
  (findKey ctx.value key).getD (freshNode key)

/-- Store a record at `key`. -/
def setRecord (ctx : meta_context) (key : Nat) (r : meta_type_node) : meta_context :=
  { value := insertOrAssign ctx.value key r }

/-- Read-modify-write of the record at `key` (`context.value[key]`
default-creates, then the mutation applies). -/
def modifyRecord (ctx : meta_context) (key : Nat) (g : meta_type_node → meta_type_node) : meta_context :=
  setRecord ctx key (g (getRecord ctx key))

/-- Modelled from the spec: `resolve(ctx, id)` of the identifier service
(resolve.hpp is outside the embedded source) finds a registered type by its
externally visible id. -/
def resolveById (ctx : meta_context) (id : Nat) : Option (Nat × meta_type_node) :=
  ctx.value.find? (fun kv => kv.2.id = id)

/-- `internal::basic_meta_factory`: the builder session state — context,
parent (the bound type's structural key), the property bucket and the
data/function selector. -/
structure basic_meta_factory where
  ctx : meta_context
  parent : Nat
  bucket : Nat
  is_data : Bool

/-- The parent record of a session. -/
def basic_meta_factory.record (f : basic_meta_factory) : meta_type_node :=
  getRecord f.ctx f.parent

/-- The data map of the session's descriptor. -/
def basic_meta_factory.dataMap (f : basic_meta_factory) : List (Nat × meta_data_node) :=
  f.record.details.data

/-- The function map of the session's descriptor. -/
def basic_meta_factory.funcMap (f : basic_meta_factory) : List (Nat × meta_func_node) :=
  f.record.details.func

/-- The constructor map of the session's descriptor. -/
def basic_meta_factory.ctorMap (f : basic_meta_factory) : List (Nat × meta_ctor_node) :=
  f.record.details.ctor

/-- The type-level property map of the session's descriptor. -/
def basic_meta_factory.typeProps (f : basic_meta_factory) : List (Nat × meta_prop_node) :=
  f.record.details.prop

/-- Replace the descriptor of the session's parent record. -/
def basic_meta_factory.withDetails (f : basic_meta_factory) (g : meta_type_descriptor → meta_type_descriptor) : basic_meta_factory :=
  { f with ctx := modifyRecord f.ctx f.parent (fun r => { r with details := g r.details }) }

/-- `basic_meta_factory::basic_meta_factory` together with the
`meta<Type>(ctx)` entry point: make sure the record for the bound type
exists in the context before the session starts, and select the parent as
the initial bucket. -/
def basic_meta_factory.init (ctx : meta_context) (parentKey : Nat) : basic_meta_factory :=
  let ctx1 : meta_context :=
    match findKey ctx.value parentKey with
    | some _ => ctx
    | none => { value := insertOrAssign ctx.value parentKey (freshNode parentKey) }
  { ctx := ctx1, parent := parentKey, bucket := parentKey, is_data := false }

/-- `basic_meta_factory::track`: the type-identifier assignment. The
`ENTT_ASSERT(elem.id == id || !resolve(*ctx, id), "Duplicate identifier")`
precondition is modelled by returning `none` (fatal) when violated;
otherwise the bucket resets to the parent and the record's id is set. -/
def basic_meta_factory.track (f : basic_meta_factory) (id : Nat) : Option basic_meta_factory :=
  let elem := getRecord f.ctx f.parent
  if elem.id = id ∨ (resolveById f.ctx id).isNone then
    some { f with ctx := setRecord f.ctx f.parent { elem with id := id }, bucket := f.parent }
  else
    none

/-- `extend(const id_type, meta_base_node)`. -/
def basic_meta_factory.extend_base (f : basic_meta_factory) (id : Nat) (node : meta_base_node) : basic_meta_factory :=
  { f.withDetails (fun d => { d with base := insertOrAssign d.base id node }) with bucket := f.parent }

/-- `extend(const id_type, meta_conv_node)`. -/
def basic_meta_factory.extend_conv (f : basic_meta_factory) (id : Nat) (node : meta_conv_node) : basic_meta_factory :=
  { f.withDetails (fun d => { d with conv := insertOrAssign d.conv id node }) with bucket := f.parent }

/-- `extend(const id_type, meta_ctor_node)`. -/
def basic_meta_factory.extend_ctor (f : basic_meta_factory) (id : Nat) (node : meta_ctor_node) : basic_meta_factory :=
  { f.withDetails (fun d => { d with ctor := insertOrAssign d.ctor id node }) with bucket := f.parent }

/-- `extend(meta_dtor_node)`: overwrite the destructor slot of the parent
record. -/
def basic_meta_factory.extend_dtor (f : basic_meta_factory) (node : meta_dtor_node) : basic_meta_factory :=
  { f with ctx := modifyRecord f.ctx f.parent (fun r => { r with dtor := some node }),
           bucket := f.parent }

/-- `extend(const id_type, meta_data_node)`: insert-or-assign into the data
map, select it as the bucket. -/
def basic_meta_factory.extend_data (f : basic_meta_factory) (id : Nat) (node : meta_data_node) : basic_meta_factory :=
  { f.withDetails (fun d => { d with data := insertOrAssign d.data id node }) with
      is_data := true, bucket := id }

/-- `extend(const id_type, meta_func_node)`: the overload-chain algorithm.
If no chain exists for `id`, `node` becomes the sole head; otherwise the
chain is walked and an invoke-identical node is replaced in place
(`spliceChain`); if none matches, `node` is prepended with the previous
head as its `next`. -/
def basic_meta_factory.extend_func (f : basic_meta_factory) (id : Nat) (node : meta_func_node) : basic_meta_factory :=
  let fm := f.funcMap
  let fm' :=
    match findKey fm id with
    | none => insertOrAssign fm id node
    | some head =>
      match spliceChain node head with
      | some head' => insertOrAssign fm id head'
      | none => insertOrAssign fm id (node.withNext (some head))
  { f.withDetails (fun d => { d with func := fm' }) with is_data := false, bucket := id }

/-- `basic_meta_factory::seek`: select an existing data/function entry. The
`ENTT_ASSERT(..., "Invalid id")` precondition is modelled by returning
`none` when the id is absent from the corresponding map. -/
def basic_meta_factory.seek (f : basic_meta_factory) (id : Nat) (dat : Bool) : Option basic_meta_factory :=
  if (dat && (findKey f.dataMap id).isSome) || (!dat && (findKey f.funcMap id).isSome) then
    some { f with is_data := dat, bucket := id }
  else
    none

/-- A value-initialized `meta_data_node`, as default-created by
`data[bucket]` when the key is absent. -/
def defaultDataNode : meta_data_node :=
  { traits := 0, arity := 0, type := 0, arg := 0, set := fun _ _ => none, get := 0 }

/-- A value-initialized `meta_func_node`, as default-created by
`func[bucket]` when the key is absent. -/
def defaultFuncNode : meta_func_node :=
  .mk 0 0 0 0 0 [] none

/-- `basic_meta_factory::property`: route the property to the bucket. When
`bucket == parent` it goes to the type-level property map; otherwise to the
property map of `data[bucket]` or `func[bucket]` according to `is_data`
(the `operator[]` default-creates an absent entry, faithfully modelled by
`getD`). -/
def basic_meta_factory.property (f : basic_meta_factory) (key : Nat) (v : meta_prop_node) : basic_meta_factory :=
  if f.bucket = f.parent then
    f.withDetails (fun d => { d with prop := insertOrAssign d.prop key v })
  else if f.is_data then
    f.withDetails (fun d =>
      let node := (findKey d.data f.bucket).getD defaultDataNode
      { d with data := insertOrAssign d.data f.bucket { node with prop := insertOrAssign node.prop key v } })
  else
    f.withDetails (fun d =>
      let node := (findKey d.func f.bucket).getD defaultFuncNode
      { d with func := insertOrAssign d.func f.bucket (node.withProp (insertOrAssign node.prop key v)) })

/-- The fold expression of the multi-setter lambda
(`(meta_setter<Type, value_list_element_v<Index, Setter>>(...) || ...)`):
try each candidate setter in declaration order, short-circuiting at the
first success; a failing candidate has no effect on the instance. -/
def multiSetterInvoke (cands : List (Nat → Nat → Option Nat)) (inst : Nat) (v : Nat) : Option Nat :=
  match cands with
  | [] => none
  | c :: rest =>
    match c inst v with
    | some r => some r
    | none => multiSetterInvoke rest inst v

/-- `meta_factory::data(const id_type, std::index_sequence<Index...>)`, the
multi-setter data registration: build a single data node whose arity is
`Setter::size` (the number of candidate setters), whose setter is the
short-circuit OR over the candidates, and whose value-type resolver,
argument resolver and getter derive from the single getter, then
`extend`. -/
def meta_factory.dataMultiSetter (f : basic_meta_factory) (id : Nat)
    (setters : List (Nat → Nat → Option Nat))
    (traits valueTypeTok argTok getTok : Nat) : basic_meta_factory :=
  f.extend_data id
    { traits := traits
      arity := setters.length
      type := valueTypeTok
      arg := argTok
      set := multiSetterInvoke setters
      get := getTok }

/-- The structural key `type_id<type_list<Args...>>().hash()` of an ordered
argument-type list, modelled as an injective fold over the argument type
tokens. -/
def argsKey (args : List Nat) : Nat :=
  args.foldl (fun h a => h * 2 + a * 2 + 1) 0

/-- `meta_factory::ctor<Candidate, Policy>()`: always extends the
constructor map with a node keyed by the candidate's argument-type list,
with no guard on the number of arguments. -/
def meta_factory.ctorCandidate (f : basic_meta_factory) (args : List Nat) (argTok invokeTok : Nat) : basic_meta_factory :=
  f.extend_ctor (argsKey args) { arity := args.length, arg := argTok, invoke := invokeTok }

/-- `meta_factory::ctor<Args...>()`: extends the constructor map only when
`sizeof...(Args) != 0`; the default constructor is never explicitly
stored. -/
def meta_factory.ctorArgs (f : basic_meta_factory) (args : List Nat) (argTok invokeTok : Nat) : basic_meta_factory :=
  if args.length ≠ 0 then
    f.extend_ctor (argsKey args) { arity := args.length, arg := argTok, invoke := invokeTok }
  else
    f

/-- `meta_reset(meta_ctx &, const id_type)`: erase every record whose
externally visible id equals `id`, keeping the rest (the erase-in-loop over
`context.value`). -/
def meta_reset_by_id (ctx : meta_context) (id : Nat) : meta_context :=
  { value := ctx.value.filter (fun kv => kv.2.id != id) }

/-- `meta_reset<Type>(meta_ctx &)`: erase exactly the record keyed by the
type's structural key. -/
def meta_reset_type (ctx : meta_context) (typeKey : Nat) : meta_context :=
  { value := eraseKey ctx.value typeKey }

/-- `meta_reset(meta_ctx &)`: clear the whole context. -/
def meta_reset_all (_ctx : meta_context) : meta_context :=
  { value := [] }

/-- The builder-session invariant: the bucket is either the parent key or a
key present in the map designated by `is_data`. -/
def basic_meta_factory.inv (f : basic_meta_factory) : Bool :=
  (f.bucket == f.parent)
    || (if f.is_data then (findKey f.dataMap f.bucket).isSome else (findKey f.funcMap f.bucket).isSome)

/-- A concrete function node (erased callable with invoke token 10) used in
the registration scenarios. -/
def funcNodeA : meta_func_node :=
  .mk 0 1 2 3 10 [] none

/-- A concrete function node (erased callable with invoke token 20,
distinct from `funcNodeA`'s) used in the registration scenarios. -/
def funcNodeB : meta_func_node :=
  .mk 0 1 2 3 20 [] none

/-- A concrete data node used in the registration scenarios. -/
def dataNodeX : meta_data_node :=
  { traits := 0, arity := 1, type := 4, arg := 5, set := fun _ _ => none, get := 6 }

/-- A concrete property node used in the registration scenarios. -/
def propNodeY : meta_prop_node :=
  { type := 2, value := some 9 }

/-- A concrete context with two registered types: type key 1 owning
external id 1 and type key 2 owning external id 9. -/
def twoTypeCtx : meta_context :=
  { value := [(1, freshNode 1), (2, { id := 9, dtor := none, details := {} })] }

/-- A builder session for type 1 in `twoTypeCtx`. -/
def sessionOne : basic_meta_factory :=
  { ctx := twoTypeCtx, parent := 1, bucket := 1, is_data := false }

/-- A concrete candidate setter that always fails (no effect). -/
def setterFail : Nat → Nat → Option Nat :=
  fun _ _ => none

/-- A concrete candidate setter that always succeeds, recording its effect
as the sum of the instance and value tokens. -/
def setterAdd : Nat → Nat → Option Nat :=
  fun inst v => some (inst + v)

/-- The data node that `property` stores into `data[bucket]`: the present
(or default-created) node with the property upserted. -/
def dataNodeWithProp (m : List (Nat × meta_data_node)) (bucket key : Nat) (v : meta_prop_node) : meta_data_node :=
  let node := (findKey m bucket).getD defaultDataNode
  { node with prop := insertOrAssign node.prop key v }

/-- The function node that `property` stores into `func[bucket]`: the
present (or default-created) head node with the property upserted. -/
def funcNodeWithProp (m : List (Nat × meta_func_node)) (bucket key : Nat) (v : meta_prop_node) : meta_func_node :=
  let node := (findKey m bucket).getD defaultFuncNode
  node.withProp (insertOrAssign node.prop key v)

theorem findKey_insertOrAssign_self {V : Type} (m : List (Nat × V)) (k : Nat) (v : V) :
    findKey (insertOrAssign m k v) k = some v := by
  induction m with
  | nil => simp [insertOrAssign, findKey]
  | cons hd tl ih =>
    by_cases h : hd.1 = k
    · simp [insertOrAssign, h, findKey]
    · simp [insertOrAssign, h, findKey, ih]

theorem findKey_insertOrAssign_ne {V : Type} (m : List (Nat × V)) (k k' : Nat) (v : V)
    (h : k' ≠ k) : findKey (insertOrAssign m k v) k' = findKey m k' := by
  have hne : ¬k = k' := fun hh => h hh.symm
  induction m with
  | nil => simp [insertOrAssign, findKey, hne]
  | cons hd tl ih =>
    obtain ⟨k1, v1⟩ := hd
    by_cases hk : k1 = k
    · subst hk
      simp [insertOrAssign, findKey, hne]
    · simp [insertOrAssign, hk, findKey, ih]

theorem keys_insertOrAssign_of_isSome {V : Type} (m : List (Nat × V)) (k : Nat) (v : V)
    (h : (findKey m k).isSome = true) :
    (insertOrAssign m k v).map Prod.fst = m.map Prod.fst := by
  induction m with
  | nil => simp [findKey] at h
  | cons hd tl ih =>
    obtain ⟨k1, v1⟩ := hd
    by_cases hk : k1 = k
    · subst hk
      simp [insertOrAssign]
    · simp [findKey, hk] at h
      simp [insertOrAssign, hk, ih h]

theorem mem_of_findKey_eq_some {V : Type} (m : List (Nat × V)) (k : Nat) (v : V)
    (h : findKey m k = some v) : (k, v) ∈ m := by
  induction m with
  | nil => simp [findKey] at h
  | cons hd tl ih =>
    obtain ⟨k1, v1⟩ := hd
    by_cases hk : k1 = k
    · simp [findKey, hk] at h
      subst hk
      subst h
      exact List.mem_cons_self _ _
    · simp [findKey, hk] at h
      exact List.mem_cons_of_mem _ (ih h)

theorem findKey_eq_some_of_mem_nodup {V : Type} (m : List (Nat × V)) (k : Nat) (v : V)
    (hnd : (m.map Prod.fst).Nodup) (h : (k, v) ∈ m) : findKey m k = some v := by
  induction m with
  | nil => simp at h
  | cons hd tl ih =>
    obtain ⟨k1, v1⟩ := hd
    simp only [List.map_cons, List.nodup_cons] at hnd
    rcases List.mem_cons.mp h with heq | hmem
    · cases heq
      simp [findKey]
    · have hne : k1 ≠ k := by
        intro he
        subst he
        exact hnd.1 (List.mem_map_of_mem Prod.fst hmem)
      simp [findKey, hne, ih hnd.2 hmem]

theorem record_withDetails (f : basic_meta_factory) (g : meta_type_descriptor → meta_type_descriptor) :
    (f.withDetails g).record = { f.record with details := g f.record.details } := by
  simp [basic_meta_factory.withDetails, basic_meta_factory.record, modifyRecord, setRecord,
    getRecord, findKey_insertOrAssign_self]

theorem chainHasInvoke_true_iff (c : meta_func_node) (tok : Nat) :
    chainHasInvoke c tok = true ↔ tok ∈ chainInvokes c := by
  simp [chainHasInvoke]

theorem chainHasInvoke_false_iff (c : meta_func_node) (tok : Nat) :
    chainHasInvoke c tok = false ↔ tok ∉ chainInvokes c := by
  rw [← Bool.not_eq_true, not_iff_not]
  exact chainHasInvoke_true_iff c tok

theorem spliceChain_eq_none_iff (node : meta_func_node) :
    ∀ c : meta_func_node, spliceChain node c = none ↔ node.invoke ∉ chainInvokes c
  | .mk t a r g i p none => by
    by_cases h : i = node.invoke <;>
      simp [spliceChain, chainInvokes, h, eq_comm]
  | .mk t a r g i p (some nxt) => by
    have ih := spliceChain_eq_none_iff node nxt
    by_cases h : i = node.invoke
    · simp [spliceChain, chainInvokes, h]
    · simp only [spliceChain, if_neg h, chainInvokes, List.mem_cons]
      have hne : ¬node.invoke = i := fun he => h he.symm
      rcases hs : spliceChain node nxt with _ | nxt'
      · simp only [hs] at ih
        have hni : node.invoke ∉ chainInvokes nxt := ih.mp trivial
        simp [hni, hne]
      · simp only [hs] at ih
        simp only [reduceCtorEq, false_iff, not_or]
        intro hcon
        exact absurd (ih.mpr hcon.2) (by simp)

theorem spliceChain_invokes (node : meta_func_node) :
    ∀ c c' : meta_func_node, spliceChain node c = some c' → chainInvokes c' = chainInvokes c
  | .mk t a r g i p none, c' => by
    obtain ⟨nt, na, nr, ng, ni, np, nn⟩ := node
    by_cases h : i = ni
    · simp only [spliceChain, meta_func_node.invoke, meta_func_node.withNext, if_pos h,
        Option.some.injEq]
      intro hc
      subst hc
      simp [chainInvokes, h]
    · intro hc
      exact absurd hc (by simp [spliceChain, meta_func_node.invoke, h])
  | .mk t a r g i p (some nxt), c' => by
    obtain ⟨nt, na, nr, ng, ni, np, nn⟩ := node
    by_cases h : i = ni
    · simp only [spliceChain, meta_func_node.invoke, meta_func_node.withNext, if_pos h,
        Option.some.injEq]
      intro hc
      subst hc
      simp [chainInvokes, h]
    · simp only [spliceChain, meta_func_node.invoke, if_neg h]
      rcases hs : spliceChain (meta_func_node.mk nt na nr ng ni np nn) nxt with _ | nxt'
      · intro hc
        exact absurd hc (by simp)
      · intro hc
        simp only [Option.some.injEq] at hc
        have ih := spliceChain_invokes (meta_func_node.mk nt na nr ng ni np nn) nxt nxt' hs
        subst hc
        simp [chainInvokes, ih]

theorem extend_func_funcMap (f : basic_meta_factory) (id : Nat) (node : meta_func_node) :
    (f.extend_func id node).funcMap =
      (match findKey f.funcMap id with
       | none => insertOrAssign f.funcMap id node
       | some head =>
         match spliceChain node head with
         | some head' => insertOrAssign f.funcMap id head'
         | none => insertOrAssign f.funcMap id (node.withNext (some head))) := by
  simp only [basic_meta_factory.extend_func]
  simp [basic_meta_factory.funcMap, basic_meta_factory.record, basic_meta_factory.withDetails,
    modifyRecord, setRecord, getRecord, findKey_insertOrAssign_self]

/-- C1: when a chain for `id` exists and the new node's invoke token matches
no node of that chain, registration makes the new node the chain head with
the previous head as its `next`; hence the invoke tokens after registration
are the new one followed by the previous chain (most recently registered
first). -/
theorem extend_func_new_overload_spec (f : basic_meta_factory) (id : Nat)
    (node head : meta_func_node)
    (hfind : findKey f.funcMap id = some head)
    (hno : chainHasInvoke head node.invoke = false) :
    findKey (f.extend_func id node).funcMap id = some (node.withNext (some head))
      ∧ chainInvokes (node.withNext (some head)) = node.invoke :: chainInvokes head := by
  have hsplice : spliceChain node head = none :=
    (spliceChain_eq_none_iff node head).mpr ((chainHasInvoke_false_iff head node.invoke).mp hno)
  constructor
  · rw [extend_func_funcMap, hfind]
    simp only [hsplice]
    exact findKey_insertOrAssign_self _ _ _
  · obtain ⟨t, a, r, g, i, p, n⟩ := node
    simp [meta_func_node.withNext, chainInvokes, meta_func_node.invoke]

/-- C1 witness: in a session where only `funcNodeA` (invoke token 10) is
registered under id 5, registering `funcNodeB` (invoke token 20) yields the
chain with `funcNodeB` at the head and `funcNodeA` as its `next`, invoke
order `[20, 10]`. -/
theorem extend_func_new_overload_witness :
    findKey (((basic_meta_factory.init {} 1).extend_func 5 funcNodeA).extend_func 5 funcNodeB).funcMap 5
        = some (funcNodeB.withNext (some funcNodeA))
      ∧ chainInvokes (funcNodeB.withNext (some funcNodeA)) = [20, 10] := by
  have h := extend_func_new_overload_spec ((basic_meta_factory.init {} 1).extend_func 5 funcNodeA)
    5 funcNodeB funcNodeA (by rfl) (by rfl)
  exact ⟨h.1, h.2⟩

/-- C2: when the new node's invoke token matches a node in the existing
chain, registration replaces that node in place: the chain keeps its invoke
order and its length (no duplicate is created). In particular, registering
`funcNodeA`, then `funcNodeB`, then `funcNodeA` again leaves the two-node
chain with `funcNodeB` still at the head and `funcNodeA` back in its
original non-head slot, invoke order `[20, 10]`. -/
theorem extend_func_replace_in_place_spec (f : basic_meta_factory) (id : Nat)
    (node head : meta_func_node)
    (hfind : findKey f.funcMap id = some head)
    (hyes : chainHasInvoke head node.invoke = true) :
    (∃ head', findKey (f.extend_func id node).funcMap id = some head'
        ∧ chainInvokes head' = chainInvokes head
        ∧ (chainInvokes head').length = (chainInvokes head).length)
      ∧ findKey ((((basic_meta_factory.init {} 1).extend_func 5 funcNodeA).extend_func 5 funcNodeB).extend_func 5 funcNodeA).funcMap 5
          = some (funcNodeB.withNext (some funcNodeA))
      ∧ chainInvokes (funcNodeB.withNext (some funcNodeA)) = [20, 10] := by
  refine ⟨?_, by rfl, by rfl⟩
  rcases hs : spliceChain node head with _ | head'
  · rw [spliceChain_eq_none_iff] at hs
    rw [chainHasInvoke_true_iff] at hyes
    exact absurd hyes hs
  · refine ⟨head', ?_, ?_, ?_⟩
    · rw [extend_func_funcMap, hfind]
      simp only [hs]
      exact findKey_insertOrAssign_self _ _ _
    · exact spliceChain_invokes node head head' hs
    · rw [spliceChain_invokes node head head' hs]

/-- C2 witness: replacing `funcNodeA` in the two-node chain `[20, 10]`
keeps a two-node chain with the same invoke order. -/
theorem extend_func_replace_in_place_witness :
    ∃ head', findKey ((((basic_meta_factory.init {} 1).extend_func 5 funcNodeA).extend_func 5 funcNodeB).extend_func 5 funcNodeA).funcMap 5
        = some head'
      ∧ chainInvokes head' = chainInvokes (funcNodeB.withNext (some funcNodeA))
      ∧ (chainInvokes head').length = (chainInvokes (funcNodeB.withNext (some funcNodeA))).length := by
  exact (extend_func_replace_in_place_spec
    (((basic_meta_factory.init {} 1).extend_func 5 funcNodeA).extend_func 5 funcNodeB)
    5 funcNodeA (funcNodeB.withNext (some funcNodeA)) (by rfl) (by rfl)).1

theorem prop_withProp (c : meta_func_node) (p : List (Nat × meta_prop_node)) :
    (c.withProp p).prop = p := by
  cases c
  rfl

theorem typeProps_withDetails (f : basic_meta_factory) (g : meta_type_descriptor → meta_type_descriptor) :
    (f.withDetails g).typeProps = (g f.record.details).prop := by
  simp [basic_meta_factory.typeProps, record_withDetails]

theorem dataMap_withDetails (f : basic_meta_factory) (g : meta_type_descriptor → meta_type_descriptor) :
    (f.withDetails g).dataMap = (g f.record.details).data := by
  simp [basic_meta_factory.dataMap, record_withDetails]

theorem funcMap_withDetails (f : basic_meta_factory) (g : meta_type_descriptor → meta_type_descriptor) :
    (f.withDetails g).funcMap = (g f.record.details).func := by
  simp [basic_meta_factory.funcMap, record_withDetails]

theorem ctorMap_withDetails (f : basic_meta_factory) (g : meta_type_descriptor → meta_type_descriptor) :
    (f.withDetails g).ctorMap = (g f.record.details).ctor := by
  simp [basic_meta_factory.ctorMap, record_withDetails]

theorem property_eq_of_parent (f : basic_meta_factory) (key : Nat) (v : meta_prop_node)
    (hb : f.bucket = f.parent) :
    f.property key v = f.withDetails (fun d => { d with prop := insertOrAssign d.prop key v }) := by
  simp [basic_meta_factory.property, hb]

theorem property_eq_of_data (f : basic_meta_factory) (key : Nat) (v : meta_prop_node)
    (hb : ¬f.bucket = f.parent) (hd : f.is_data = true) :
    f.property key v = f.withDetails (fun d =>
      let node := (findKey d.data f.bucket).getD defaultDataNode
      { d with data := insertOrAssign d.data f.bucket { node with prop := insertOrAssign node.prop key v } }) := by
  simp [basic_meta_factory.property, hb, hd]

theorem property_eq_of_func (f : basic_meta_factory) (key : Nat) (v : meta_prop_node)
    (hb : ¬f.bucket = f.parent) (hd : f.is_data = false) :
    f.property key v = f.withDetails (fun d =>
      let node := (findKey d.func f.bucket).getD defaultFuncNode
      { d with func := insertOrAssign d.func f.bucket (node.withProp (insertOrAssign node.prop key v)) }) := by
  simp [basic_meta_factory.property, hb, hd]

theorem property_bucket_eq (f : basic_meta_factory) (k : Nat) (v : meta_prop_node) :
    (f.property k v).bucket = f.bucket := by
  unfold basic_meta_factory.property
  split
  · rfl
  · split <;> rfl

theorem property_parent_eq (f : basic_meta_factory) (k : Nat) (v : meta_prop_node) :
    (f.property k v).parent = f.parent := by
  unfold basic_meta_factory.property
  split
  · rfl
  · split <;> rfl

theorem property_is_data_eq (f : basic_meta_factory) (k : Nat) (v : meta_prop_node) :
    (f.property k v).is_data = f.is_data := by
  unfold basic_meta_factory.property
  split
  · rfl
  · split <;> rfl

/-- C3: `property` routes the entry by the current bucket — to the
type-level property map exactly when `bucket = parent`, otherwise to the
property map of the data entry keyed by the bucket when `is_data`, and of
the function entry keyed by the bucket when not; in each case the other two
targets are untouched and a repeated key overwrites (last write wins). -/
theorem property_bucket_routing_spec (f : basic_meta_factory) (key : Nat) (v v0 : meta_prop_node) :
    (f.bucket = f.parent →
        findKey (f.property key v).typeProps key = some v
        ∧ (∀ k, k ≠ key → findKey (f.property key v).typeProps k = findKey f.typeProps k)
        ∧ (f.property key v).dataMap = f.dataMap
        ∧ (f.property key v).funcMap = f.funcMap
        ∧ findKey ((f.property key v0).property key v).typeProps key = some v)
    ∧ (f.bucket ≠ f.parent → f.is_data = true →
        (∃ nd, findKey (f.property key v).dataMap f.bucket = some nd
            ∧ findKey nd.prop key = some v)
        ∧ (f.property key v).typeProps = f.typeProps
        ∧ (f.property key v).funcMap = f.funcMap
        ∧ (∃ nd, findKey ((f.property key v0).property key v).dataMap f.bucket = some nd
            ∧ findKey nd.prop key = some v))
    ∧ (f.bucket ≠ f.parent → f.is_data = false →
        (∃ nf, findKey (f.property key v).funcMap f.bucket = some nf
            ∧ findKey nf.prop key = some v)
        ∧ (f.property key v).typeProps = f.typeProps
        ∧ (f.property key v).dataMap = f.dataMap
        ∧ (∃ nf, findKey ((f.property key v0).property key v).funcMap f.bucket = some nf
            ∧ findKey nf.prop key = some v)) := by
  refine ⟨fun hb => ?_, fun hb hd => ?_, fun hb hd => ?_⟩
  · refine ⟨?_, ?_, ?_, ?_, ?_⟩
    · rw [property_eq_of_parent f key v hb, typeProps_withDetails]
      exact findKey_insertOrAssign_self _ _ _
    · intro k hk
      rw [property_eq_of_parent f key v hb, typeProps_withDetails]
      exact findKey_insertOrAssign_ne _ _ _ _ hk
    · rw [property_eq_of_parent f key v hb, dataMap_withDetails]
      rfl
    · rw [property_eq_of_parent f key v hb, funcMap_withDetails]
      rfl
    · have hb' : (f.property key v0).bucket = (f.property key v0).parent := by
        rw [property_bucket_eq, property_parent_eq]
        exact hb
      rw [property_eq_of_parent (f.property key v0) key v hb', typeProps_withDetails]
      exact findKey_insertOrAssign_self _ _ _
  · refine ⟨?_, ?_, ?_, ?_⟩
    · have h1 : findKey (f.property key v).dataMap f.bucket
          = some (dataNodeWithProp f.dataMap f.bucket key v) := by
        rw [property_eq_of_data f key v hb hd, dataMap_withDetails]
        exact findKey_insertOrAssign_self _ _ _
      have h2 : findKey (dataNodeWithProp f.dataMap f.bucket key v).prop key = some v :=
        findKey_insertOrAssign_self _ _ _
      exact ⟨_, h1, h2⟩
    · rw [property_eq_of_data f key v hb hd, typeProps_withDetails]
      rfl
    · rw [property_eq_of_data f key v hb hd, funcMap_withDetails]
      rfl
    · have hb' : ¬(f.property key v0).bucket = (f.property key v0).parent := by
        rw [property_bucket_eq, property_parent_eq]
        exact hb
      have hd' : (f.property key v0).is_data = true := by
        rw [property_is_data_eq]
        exact hd
      have h1 : findKey ((f.property key v0).property key v).dataMap f.bucket
          = some (dataNodeWithProp (f.property key v0).dataMap f.bucket key v) := by
        rw [property_eq_of_data (f.property key v0) key v hb' hd', dataMap_withDetails,
          property_bucket_eq]
        exact findKey_insertOrAssign_self _ _ _
      have h2 : findKey (dataNodeWithProp (f.property key v0).dataMap f.bucket key v).prop key
          = some v :=
        findKey_insertOrAssign_self _ _ _
      exact ⟨_, h1, h2⟩
  · refine ⟨?_, ?_, ?_, ?_⟩
    · have h1 : findKey (f.property key v).funcMap f.bucket
          = some (funcNodeWithProp f.funcMap f.bucket key v) := by
        rw [property_eq_of_func f key v hb hd, funcMap_withDetails]
        exact findKey_insertOrAssign_self _ _ _
      have h2 : findKey (funcNodeWithProp f.funcMap f.bucket key v).prop key = some v := by
        show findKey (((findKey f.funcMap f.bucket).getD defaultFuncNode).withProp
          (insertOrAssign ((findKey f.funcMap f.bucket).getD defaultFuncNode).prop key v)).prop key = some v
        rw [prop_withProp]
        exact findKey_insertOrAssign_self _ _ _
      exact ⟨_, h1, h2⟩
    · rw [property_eq_of_func f key v hb hd, typeProps_withDetails]
      rfl
    · rw [property_eq_of_func f key v hb hd, dataMap_withDetails]
      rfl
    · have hb' : ¬(f.property key v0).bucket = (f.property key v0).parent := by
        rw [property_bucket_eq, property_parent_eq]
        exact hb
      have hd' : (f.property key v0).is_data = false := by
        rw [property_is_data_eq]
        exact hd
      have h1 : findKey ((f.property key v0).property key v).funcMap f.bucket
          = some (funcNodeWithProp (f.property key v0).funcMap f.bucket key v) := by
        rw [property_eq_of_func (f.property key v0) key v hb' hd', funcMap_withDetails,
          property_bucket_eq]
        exact findKey_insertOrAssign_self _ _ _
      have h2 : findKey (funcNodeWithProp (f.property key v0).funcMap f.bucket key v).prop key
          = some v := by
        show findKey (((findKey (f.property key v0).funcMap f.bucket).getD defaultFuncNode).withProp
          (insertOrAssign ((findKey (f.property key v0).funcMap f.bucket).getD defaultFuncNode).prop key v)).prop key = some v
        rw [prop_withProp]
        exact findKey_insertOrAssign_self _ _ _
      exact ⟨_, h1, h2⟩

/-- C3 witness: after `extend_data 7` the property with key 3 lands in data
entry 7's property map, and in a fresh session (bucket = parent) the
property with key 4 lands in the type-level map. -/
theorem property_bucket_routing_witness :
    (∃ nd, findKey (((basic_meta_factory.init {} 1).extend_data 7 dataNodeX).property 3 propNodeY).dataMap 7 = some nd
        ∧ findKey nd.prop 3 = some propNodeY)
    ∧ findKey ((basic_meta_factory.init {} 1).property 4 propNodeY).typeProps 4 = some propNodeY := by
  constructor
  · exact ((property_bucket_routing_spec ((basic_meta_factory.init {} 1).extend_data 7 dataNodeX)
      3 propNodeY propNodeY).2.1 (by decide) (by rfl)).1
  · exact ((property_bucket_routing_spec (basic_meta_factory.init {} 1)
      4 propNodeY propNodeY).1 (by rfl)).1

theorem resolveById_eq_none_iff (ctx : meta_context) (id : Nat) :
    resolveById ctx id = none ↔ ∀ kv ∈ ctx.value, kv.2.id ≠ id := by
  simp [resolveById, List.find?_eq_none]

/-- C4: `track` (the type-identifier assignment) hits the fatal
duplicate-identifier assertion if and only if some type other than the
bound one currently owns `id` (stated over well-formed contexts: unique map
keys, unique external ids, parent record present); on success the bound
type's record gets external id `id`, the bucket resets to the parent key
and every other record is untouched. The identifier lookup `resolve(ctx,
id)` is modelled from the spec (`resolveById`). -/
theorem track_duplicate_identifier_spec (f : basic_meta_factory) (id : Nat)
    (elem : meta_type_node)
    (hparent : findKey f.ctx.value f.parent = some elem)
    (hkeys : (f.ctx.value.map Prod.fst).Nodup)
    (hids : (f.ctx.value.map (fun kv => kv.2.id)).Nodup) :
    (f.track id = none ↔ ∃ kv ∈ f.ctx.value, kv.1 ≠ f.parent ∧ kv.2.id = id)
    ∧ (∀ f', f.track id = some f' →
        findKey f'.ctx.value f.parent = some { elem with id := id }
        ∧ f'.bucket = f.parent
        ∧ f'.parent = f.parent
        ∧ f'.is_data = f.is_data
        ∧ (∀ k, k ≠ f.parent → findKey f'.ctx.value k = findKey f.ctx.value k)) := by
  have hrec : getRecord f.ctx f.parent = elem := by
    rw [getRecord, hparent]
    rfl
  have hmemp : (f.parent, elem) ∈ f.ctx.value := mem_of_findKey_eq_some _ _ _ hparent
  constructor
  · constructor
    · intro hnone
      rw [basic_meta_factory.track] at hnone
      by_cases hc : (getRecord f.ctx f.parent).id = id ∨ (resolveById f.ctx id).isNone = true
      · rw [if_pos hc] at hnone
        exact absurd hnone (by simp)
      · push_neg at hc
        obtain ⟨hid, hres⟩ := hc
        rw [hrec] at hid
        rcases hr : resolveById f.ctx id with _ | kv0
        · rw [hr] at hres
          simp at hres
        · have hkv0p : kv0.2.id = id := by
            have := List.find?_some hr
            simpa using this
          have hkv0m : kv0 ∈ f.ctx.value := List.mem_of_find?_eq_some hr
          refine ⟨kv0, hkv0m, ?_, hkv0p⟩
          intro hkp
          have : kv0 = (f.parent, elem) :=
            List.inj_on_of_nodup_map hkeys hkv0m hmemp hkp
          rw [this] at hkv0p
          exact hid hkv0p
    · intro hex
      obtain ⟨kv, hkvm, hkvp, hkvid⟩ := hex
      have hid : ¬(getRecord f.ctx f.parent).id = id := by
        rw [hrec]
        intro heid
        have : kv = (f.parent, elem) := by
          refine List.inj_on_of_nodup_map hids hkvm hmemp ?_
          simp [hkvid, heid]
        rw [this] at hkvp
        exact hkvp rfl
      have hres : ¬(resolveById f.ctx id).isNone = true := by
        intro hn
        rw [Option.isNone_iff_eq_none, resolveById_eq_none_iff] at hn
        exact hn kv hkvm hkvid
      rw [basic_meta_factory.track]
      simp [hid, hres]
  · intro f' hsome
    rw [basic_meta_factory.track] at hsome
    by_cases hc : (getRecord f.ctx f.parent).id = id ∨ (resolveById f.ctx id).isNone = true
    · simp only [if_pos hc, Option.some.injEq] at hsome
      subst hsome
      rw [hrec]
      refine ⟨?_, rfl, rfl, rfl, ?_⟩
      · exact findKey_insertOrAssign_self _ _ _
      · intro k hk
        exact findKey_insertOrAssign_ne _ _ _ _ hk
    · simp [if_neg hc] at hsome

/-- C4 witness: in a context where type 1 (record id 1) and type 2 (record
id 9) are present, a session for type 1 cannot take id 9 (`track` is
fatal), while taking the fresh id 4 succeeds and rewrites only type 1's
record. -/
theorem track_duplicate_identifier_witness :
    sessionOne.track 9 = none
    ∧ (∀ f', sessionOne.track 4 = some f' →
        findKey f'.ctx.value 1 = some { freshNode 1 with id := 4 }) := by
  constructor
  · exact (track_duplicate_identifier_spec sessionOne 9 (freshNode 1) (by rfl)
      (by simp [sessionOne, twoTypeCtx, freshNode])
      (by simp [sessionOne, twoTypeCtx, freshNode])).1.mpr
      ⟨(2, { id := 9, dtor := none, details := {} }),
        by simp [sessionOne, twoTypeCtx], by simp [sessionOne], rfl⟩
  · intro f' hf'
    exact ((track_duplicate_identifier_spec sessionOne 4 (freshNode 1) (by rfl)
      (by simp [sessionOne, twoTypeCtx, freshNode])
      (by simp [sessionOne, twoTypeCtx, freshNode])).2 f' hf').1

theorem extend_data_dataMap (f : basic_meta_factory) (id : Nat) (node : meta_data_node) :
    (f.extend_data id node).dataMap = insertOrAssign f.dataMap id node := by
  simp only [basic_meta_factory.extend_data]
  simp [basic_meta_factory.dataMap, basic_meta_factory.record, basic_meta_factory.withDetails,
    modifyRecord, setRecord, getRecord, findKey_insertOrAssign_self]

theorem extend_ctor_ctorMap (f : basic_meta_factory) (id : Nat) (node : meta_ctor_node) :
    (f.extend_ctor id node).ctorMap = insertOrAssign f.ctorMap id node := by
  simp only [basic_meta_factory.extend_ctor]
  simp [basic_meta_factory.ctorMap, basic_meta_factory.record, basic_meta_factory.withDetails,
    modifyRecord, setRecord, getRecord, findKey_insertOrAssign_self]

theorem multiSetterInvoke_first_success (pre : List (Nat → Nat → Option Nat))
    (c : Nat → Nat → Option Nat) (post : List (Nat → Nat → Option Nat))
    (inst v r : Nat) (hpre : ∀ s ∈ pre, s inst v = none) (hc : c inst v = some r) :
    multiSetterInvoke (pre ++ c :: post) inst v = some r := by
  induction pre with
  | nil => simp [multiSetterInvoke, hc]
  | cons s rest ih =>
    have hs : s inst v = none := hpre s (by simp)
    simp only [List.cons_append, multiSetterInvoke, hs]
    exact ih (fun s' hs' => hpre s' (List.mem_cons_of_mem _ hs'))

theorem multiSetterInvoke_all_fail (cands : List (Nat → Nat → Option Nat)) (inst v : Nat)
    (h : ∀ s ∈ cands, s inst v = none) :
    multiSetterInvoke cands inst v = none := by
  induction cands with
  | nil => rfl
  | cons s rest ih =>
    have hs : s inst v = none := h s (by simp)
    simp only [multiSetterInvoke, hs]
    exact ih (fun s' hs' => h s' (List.mem_cons_of_mem _ hs'))

/-- C5: the multi-setter data registration stores exactly one data entry
under `id` — leaving every other data id untouched — whose recorded arity
is the number of candidate setters, whose getter and value-type resolver
come from the single getter, and whose setter operation is the
short-circuit OR over the candidates: it returns the first success, later
candidates not consulted, and fails only when all candidates fail. -/
theorem data_multi_setter_spec (f : basic_meta_factory) (id : Nat)
    (setters : List (Nat → Nat → Option Nat)) (traits valueTypeTok argTok getTok : Nat) :
    (∃ nd, findKey (meta_factory.dataMultiSetter f id setters traits valueTypeTok argTok getTok).dataMap id = some nd
        ∧ nd.arity = setters.length
        ∧ nd.get = getTok
        ∧ nd.type = valueTypeTok
        ∧ nd.set = multiSetterInvoke setters)
    ∧ (∀ k, k ≠ id →
        findKey (meta_factory.dataMultiSetter f id setters traits valueTypeTok argTok getTok).dataMap k
          = findKey f.dataMap k)
    ∧ (∀ (pre post : List (Nat → Nat → Option Nat)) (c : Nat → Nat → Option Nat) (inst v r : Nat),
        (∀ s ∈ pre, s inst v = none) → c inst v = some r →
        multiSetterInvoke (pre ++ c :: post) inst v = some r)
    ∧ (∀ inst v, (∀ s ∈ setters, s inst v = none) → multiSetterInvoke setters inst v = none) := by
  refine ⟨?_, ?_, ?_, ?_⟩
  · have h1 : findKey (meta_factory.dataMultiSetter f id setters traits valueTypeTok argTok getTok).dataMap id
        = some { traits := traits, arity := setters.length, type := valueTypeTok, arg := argTok,
                 set := multiSetterInvoke setters, get := getTok, prop := [] } := by
      rw [meta_factory.dataMultiSetter, extend_data_dataMap]
      exact findKey_insertOrAssign_self _ _ _
    exact ⟨_, h1, rfl, rfl, rfl, rfl⟩
  · intro k hk
    rw [meta_factory.dataMultiSetter, extend_data_dataMap]
    exact findKey_insertOrAssign_ne _ _ _ _ hk
  · intro pre post c inst v r hpre hc
    exact multiSetterInvoke_first_success pre c post inst v r hpre hc
  · intro inst v h
    exact multiSetterInvoke_all_fail setters inst v h

/-- C5 witness: registering the candidates `[setterFail, setterAdd]` with
getter token 6 yields one entry of arity 2 whose setter succeeds with
`setterAdd`'s effect (105 on instance 100, value 5) although `setterFail`
comes first, and fails when every candidate fails. -/
theorem data_multi_setter_witness :
    (∃ nd, findKey (meta_factory.dataMultiSetter (basic_meta_factory.init {} 1) 7
          [setterFail, setterAdd] 0 4 5 6).dataMap 7 = some nd
        ∧ nd.arity = 2
        ∧ nd.set = multiSetterInvoke [setterFail, setterAdd])
    ∧ multiSetterInvoke [setterFail, setterAdd] 100 5 = some 105
    ∧ multiSetterInvoke [setterFail, setterFail] 100 5 = none := by
  have h := data_multi_setter_spec (basic_meta_factory.init {} 1) 7 [setterFail, setterAdd] 0 4 5 6
  refine ⟨?_, ?_, ?_⟩
  · obtain ⟨nd, h1, h2, _, _, h5⟩ := h.1
    exact ⟨nd, h1, h2, h5⟩
  · exact h.2.2.1 [setterFail] [] setterAdd 100 5 105 (by intro s hs; simp at hs; rw [hs]; rfl) rfl
  · exact (data_multi_setter_spec (basic_meta_factory.init {} 1) 7 [setterFail, setterFail]
      0 4 5 6).2.2.2 100 5 (by intro s hs; simp at hs; rw [hs]; rfl)

/-- C6: the reset-by-id operation keeps exactly the records whose external
id differs from the target: an entry survives the reset if and only if it
was present before and its record's id is not the one being reset — all
matches are removed in the single call, every non-match is left in
place. -/
theorem meta_reset_by_id_spec (ctx : meta_context) (id : Nat) (k : Nat) (r : meta_type_node) :
    (k, r) ∈ (meta_reset_by_id ctx id).value ↔ ((k, r) ∈ ctx.value ∧ r.id ≠ id) := by
  simp [meta_reset_by_id, List.mem_filter]

theorem findKey_filter_ne_key {V : Type} (l : List (Nat × V)) (tk k : Nat) :
    findKey (l.filter (fun kv => kv.1 != tk)) k
      = if k = tk then none else findKey l k := by
  induction l with
  | nil => simp [findKey]
  | cons hd tl ih =>
    obtain ⟨k1, v1⟩ := hd
    by_cases h1 : k1 = tk
    · subst h1
      have hb : (k1 != k1) = false := by simp
      by_cases h2 : k = k1
      · subst h2
        simpa [List.filter, hb, findKey] using ih
      · have h3 : ¬k1 = k := fun hh => h2 hh.symm
        simpa [List.filter, hb, findKey, h2, h3] using ih
    · have hb : (k1 != tk) = true := by simp [h1]
      by_cases h2 : k1 = k
      · subst h2
        simp [List.filter, hb, findKey, h1]
      · simpa [List.filter, hb, findKey, h2] using ih

/-- C7: the per-type reset removes exactly the record keyed by the type's
structural key: after the call the lookup at that key is `none`, and the
lookup at every other key returns the record it returned before, whole and
unchanged (in particular any bases entries referencing the removed type
stay in place in their owners). -/
theorem meta_reset_type_spec (ctx : meta_context) (typeKey k : Nat) :
    findKey (meta_reset_type ctx typeKey).value k
      = if k = typeKey then none else findKey ctx.value k := by
  rw [meta_reset_type, eraseKey]
  exact findKey_filter_ne_key ctx.value typeKey k

/-- C8: the selection operation `seek` (behind the non-template
`data(id)`/`func(id)` overloads) is fatal exactly when the corresponding
map has no entry keyed `id`; on success it only sets the bucket to `id` and
the data/function selector, leaving the context — descriptor, entry and
all — untouched. -/
theorem seek_invalid_identifier_spec (f : basic_meta_factory) (id : Nat) (dat : Bool) :
    (f.seek id true = none ↔ findKey f.dataMap id = none)
    ∧ (f.seek id false = none ↔ findKey f.funcMap id = none)
    ∧ (∀ f', f.seek id dat = some f' →
        f'.ctx = f.ctx ∧ f'.parent = f.parent ∧ f'.bucket = id ∧ f'.is_data = dat) := by
  refine ⟨?_, ?_, ?_⟩
  · rw [basic_meta_factory.seek]
    rcases h : findKey f.dataMap id with _ | nd <;> simp [h]
  · rw [basic_meta_factory.seek]
    rcases h : findKey f.funcMap id with _ | nf <;> simp [h]
  · intro f' hf'
    rw [basic_meta_factory.seek] at hf'
    by_cases hc : (dat && (findKey f.dataMap id).isSome || !dat && (findKey f.funcMap id).isSome) = true
    · rw [if_pos hc] at hf'
      obtain rfl := Option.some.inj hf'
      exact ⟨rfl, rfl, rfl, rfl⟩
    · rw [if_neg hc] at hf'
      exact absurd hf' (by simp)

/-- C8 witness: in a session holding data entry 7, selecting data id 9 is
fatal, while selecting data id 7 succeeds with bucket 7 and an unchanged
context. -/
theorem seek_invalid_identifier_witness :
    ((basic_meta_factory.init {} 1).extend_data 7 dataNodeX).seek 9 true = none
    ∧ (∀ f', ((basic_meta_factory.init {} 1).extend_data 7 dataNodeX).seek 7 true = some f' →
        f'.ctx = ((basic_meta_factory.init {} 1).extend_data 7 dataNodeX).ctx
        ∧ f'.bucket = 7) := by
  constructor
  · exact (seek_invalid_identifier_spec ((basic_meta_factory.init {} 1).extend_data 7 dataNodeX)
      9 true).1.mpr (by rfl)
  · intro f' hf'
    have h := (seek_invalid_identifier_spec ((basic_meta_factory.init {} 1).extend_data 7 dataNodeX)
      7 true).2.2 f' hf'
    exact ⟨h.1, h.2.2.1⟩

/-- C9 counterexample: the candidate-function constructor registration form
(`ctor<Candidate>`) stores an entry for a zero-argument candidate — the
constructors map does not stay unchanged, contradicting the claim's "holds
over every constructor registration form". -/
theorem ctor_zero_arg_counterexample :
    findKey (basic_meta_factory.init {} 1).ctorMap (argsKey []) = none
    ∧ findKey (meta_factory.ctorCandidate (basic_meta_factory.init {} 1) [] 5 6).ctorMap (argsKey [])
        = some { arity := 0, arg := 5, invoke := 6 } := by
  constructor
  · rfl
  · rw [meta_factory.ctorCandidate, extend_ctor_ctorMap]
    exact findKey_insertOrAssign_self _ _ _

/-- C9 (amended): only the argument-type-list constructor form
(`ctor<Args...>`) skips the zero-argument case — with an empty argument
list it returns the session unchanged, so the constructors map is left
untouched; the candidate form always stores an entry, keyed by its
(possibly empty) argument list. -/
theorem ctor_args_empty_noop_spec (f : basic_meta_factory) (argTok invokeTok : Nat) :
    meta_factory.ctorArgs f [] argTok invokeTok = f
    ∧ (meta_factory.ctorArgs f [] argTok invokeTok).ctorMap = f.ctorMap
    ∧ findKey (meta_factory.ctorCandidate f [] argTok invokeTok).ctorMap (argsKey [])
        = some { arity := 0, arg := argTok, invoke := invokeTok } := by
  refine ⟨by simp [meta_factory.ctorArgs], by simp [meta_factory.ctorArgs], ?_⟩
  rw [meta_factory.ctorCandidate, extend_ctor_ctorMap]
  exact findKey_insertOrAssign_self _ _ _

theorem inv_of_bucket_eq_parent (f : basic_meta_factory) (h : f.bucket = f.parent) :
    f.inv = true := by
  simp [basic_meta_factory.inv, h]

theorem inv_of_data_bucket (f : basic_meta_factory) (hd : f.is_data = true)
    (h : (findKey f.dataMap f.bucket).isSome = true) : f.inv = true := by
  simp [basic_meta_factory.inv, hd, h]

theorem inv_of_func_bucket (f : basic_meta_factory) (hd : f.is_data = false)
    (h : (findKey f.funcMap f.bucket).isSome = true) : f.inv = true := by
  simp [basic_meta_factory.inv, hd, h]

/-- C10: the builder-session invariant — the bucket is the parent key or a
key present in the map selected by `is_data` — holds after construction and
is preserved by every builder operation; consequently, under the invariant,
the unchecked `data[bucket]`/`func[bucket]` lookups inside `property` never
default-create an entry: `property` leaves the key sets of the data and
function maps unchanged. -/
theorem builder_bucket_invariant_spec (f : basic_meta_factory) (ctx : meta_context)
    (p id key : Nat) (args : List Nat) (a b : Nat)
    (nb : meta_base_node) (nc : meta_conv_node) (nk : meta_ctor_node) (ndt : meta_dtor_node)
    (nd : meta_data_node) (nf : meta_func_node) (v : meta_prop_node) (dat : Bool)
    (hinv : f.inv = true) :
    (basic_meta_factory.init ctx p).inv = true
    ∧ (∀ f', f.track id = some f' → f'.inv = true)
    ∧ (f.extend_base id nb).inv = true
    ∧ (f.extend_conv id nc).inv = true
    ∧ (f.extend_ctor id nk).inv = true
    ∧ (f.extend_dtor ndt).inv = true
    ∧ (f.extend_data id nd).inv = true
    ∧ (f.extend_func id nf).inv = true
    ∧ (∀ f', f.seek id dat = some f' → f'.inv = true)
    ∧ (f.property key v).inv = true
    ∧ (meta_factory.ctorArgs f args a b).inv = true
    ∧ (f.property key v).dataMap.map Prod.fst = f.dataMap.map Prod.fst
    ∧ (f.property key v).funcMap.map Prod.fst = f.funcMap.map Prod.fst := by
  refine ⟨?_, ?_, ?_, ?_, ?_, ?_, ?_, ?_, ?_, ?_, ?_, ?_, ?_⟩
  · exact inv_of_bucket_eq_parent _ rfl
  · intro f' hf'
    rw [basic_meta_factory.track] at hf'
    by_cases hc : (getRecord f.ctx f.parent).id = id ∨ (resolveById f.ctx id).isNone = true
    · rw [if_pos hc] at hf'
      obtain rfl := Option.some.inj hf'
      exact inv_of_bucket_eq_parent _ rfl
    · rw [if_neg hc] at hf'
      exact absurd hf' (by simp)
  · exact inv_of_bucket_eq_parent _ rfl
  · exact inv_of_bucket_eq_parent _ rfl
  · exact inv_of_bucket_eq_parent _ rfl
  · exact inv_of_bucket_eq_parent _ rfl
  · apply inv_of_data_bucket _ rfl
    rw [extend_data_dataMap]
    show (findKey (insertOrAssign f.dataMap id nd) id).isSome = true
    rw [findKey_insertOrAssign_self]
    rfl
  · apply inv_of_func_bucket _ rfl
    rw [extend_func_funcMap]
    show (findKey
      (match findKey f.funcMap id with
       | none => insertOrAssign f.funcMap id nf
       | some head =>
         match spliceChain nf head with
         | some head' => insertOrAssign f.funcMap id head'
         | none => insertOrAssign f.funcMap id (nf.withNext (some head))) id).isSome = true
    rcases h1 : findKey f.funcMap id with _ | head
    · simp [findKey_insertOrAssign_self]
    · rcases h2 : spliceChain nf head with _ | head' <;>
        simp [h2, findKey_insertOrAssign_self]
  · intro f' hf'
    rw [basic_meta_factory.seek] at hf'
    by_cases hc : (dat && (findKey f.dataMap id).isSome || !dat && (findKey f.funcMap id).isSome) = true
    · rw [if_pos hc] at hf'
      obtain rfl := Option.some.inj hf'
      cases dat
      · simp only [Bool.false_and, Bool.not_false, Bool.true_and, Bool.false_or] at hc
        exact inv_of_func_bucket _ rfl hc
      · simp only [Bool.true_and, Bool.not_true, Bool.false_and, Bool.or_false] at hc
        exact inv_of_data_bucket _ rfl hc
    · rw [if_neg hc] at hf'
      exact absurd hf' (by simp)
  · by_cases hb : f.bucket = f.parent
    · apply inv_of_bucket_eq_parent
      rw [property_bucket_eq, property_parent_eq]
      exact hb
    · rcases hd : f.is_data with _ | _
      · apply inv_of_func_bucket
        · rw [property_is_data_eq]
          exact hd
        · rw [property_bucket_eq, property_eq_of_func f key v hb hd, funcMap_withDetails]
          rw [findKey_insertOrAssign_self]
          rfl
      · apply inv_of_data_bucket
        · rw [property_is_data_eq]
          exact hd
        · rw [property_bucket_eq, property_eq_of_data f key v hb hd, dataMap_withDetails]
          rw [findKey_insertOrAssign_self]
          rfl
  · rcases args with _ | ⟨a0, rest⟩
    · simpa [meta_factory.ctorArgs] using hinv
    · have hne : meta_factory.ctorArgs f (a0 :: rest) a b
          = f.extend_ctor (argsKey (a0 :: rest))
              { arity := (a0 :: rest).length, arg := a, invoke := b } := by
        simp [meta_factory.ctorArgs]
      rw [hne]
      exact inv_of_bucket_eq_parent _ rfl
  · by_cases hb : f.bucket = f.parent
    · rw [property_eq_of_parent f key v hb, dataMap_withDetails]
      rfl
    · rcases hd : f.is_data with _ | _
      · rw [property_eq_of_func f key v hb hd, dataMap_withDetails]
        rfl
      · rw [property_eq_of_data f key v hb hd, dataMap_withDetails]
        have hsome : (findKey f.dataMap f.bucket).isSome = true := by
          rw [basic_meta_factory.inv] at hinv
          simpa [hb, hd] using hinv
        exact keys_insertOrAssign_of_isSome _ _ _ hsome
  · by_cases hb : f.bucket = f.parent
    · rw [property_eq_of_parent f key v hb, funcMap_withDetails]
      rfl
    · rcases hd : f.is_data with _ | _
      · rw [property_eq_of_func f key v hb hd, funcMap_withDetails]
        have hsome : (findKey f.funcMap f.bucket).isSome = true := by
          rw [basic_meta_factory.inv] at hinv
          simpa [hb, hd] using hinv
        exact keys_insertOrAssign_of_isSome _ _ _ hsome
      · rw [property_eq_of_data f key v hb hd, funcMap_withDetails]
        rfl

/-- C10 witness: the invariant holds for a fresh session, is preserved
across a data registration followed by a property attachment, and that
property call leaves the data-map key set unchanged (no default-created
entry). -/
theorem builder_bucket_invariant_witness :
    (basic_meta_factory.init {} 1).inv = true
    ∧ (((basic_meta_factory.init {} 1).extend_data 7 dataNodeX).property 3 propNodeY).inv = true
    ∧ (((basic_meta_factory.init {} 1).extend_data 7 dataNodeX).property 3 propNodeY).dataMap.map Prod.fst
        = ((basic_meta_factory.init {} 1).extend_data 7 dataNodeX).dataMap.map Prod.fst := by
  have h := builder_bucket_invariant_spec ((basic_meta_factory.init {} 1).extend_data 7 dataNodeX)
    {} 1 7 3 [] 0 0 ⟨0, 0⟩ ⟨0⟩ ⟨0, 0, 0⟩ ⟨0⟩ dataNodeX defaultFuncNode propNodeY true (by rfl)
  exact ⟨h.1, h.2.2.2.2.2.2.2.2.2.1, h.2.2.2.2.2.2.2.2.2.2.2.1⟩

end entt
